import Mathlib

/-!
Shallow embedding of the generation pipeline of `src/App.tsx`
(Past Forward: decade-styled image generation with a bounded worker pool,
a per-decade result store, single-item regeneration, reset, and album
composition).  JavaScript plain-object records are embedded as association
lists that keep JS insertion order (`jsSet` updates an existing key in
place and appends a fresh key at the end), matching the semantics of
`Object.entries` / `Object.keys` on string-keyed records.
-/

/-- The fixed catalog of decade identifiers (`DECADES`, App.tsx line 12). -/
def DECADES : List String := ["1950s", "1960s", "1970s", "1980s", "1990s", "2000s"]

/-- Per-item status (`ImageStatus`, App.tsx line 34). -/
inductive ImageStatus
  | pending
  | done
  | error
deriving DecidableEq, Repr

/-- One result-store entry (`GeneratedImage`, App.tsx lines 35-39): optional
fields are `Option`s, absent field = `none`. -/
structure GeneratedImage where
  status : ImageStatus
  url : Option String := none
  error : Option String := none
deriving DecidableEq, Repr

/-- The result store `generatedImages : Record<string, GeneratedImage>`,
embedded as an insertion-ordered association list. -/
abbrev Store := List (String × GeneratedImage)

/-- JS record update `{...prev, [k]: v}` / `rec[k] = v`: overwrite in place
when the key exists (keeping its position), append otherwise. -/
def jsSet (s : Store) (k : String) (v : GeneratedImage) : Store :=
  if s.any (fun p => p.1 = k) then
    s.map (fun p => if p.1 = k then (k, v) else p)
  else
    s ++ [(k, v)]

/-- JS record read `rec[k]` (`undefined` = `none`). -/
def jsGet (s : Store) (k : String) : Option GeneratedImage :=
  (s.find? (fun p => p.1 = k)).map Prod.snd

/-- Caption record `customCaptions : Record<string, string>`. -/
abbrev Captions := List (String × String)

/-- Read a caption override (`customCaptions[k]`). -/
def jsGetStr (s : Captions) (k : String) : Option String :=
  (s.find? (fun p => p.1 = k)).map Prod.snd

/-- Caption record update, same JS record semantics as `jsSet`. -/
def jsSetStr (s : Captions) (k : String) (v : String) : Captions :=
  if s.any (fun p => p.1 = k) then
    s.map (fun p => if p.1 = k then (k, v) else p)
  else
    s ++ [(k, v)]

/-- The entry written when an identifier is (re)initialised to pending
(`{ status: 'pending' }`, App.tsx lines 98 and 151). -/
def pendingEntry : GeneratedImage := { status := .pending }

/-- Outcome of one Generator Client call (`generateDecadeImage`): the
promise resolves with a url, or rejects with an error value that carries a
message exactly when it is an `Error` instance (App.tsx lines 108-117). -/
inductive GenOutcome
  | success (url : String)
  | failure (msg : Option String)
deriving DecidableEq, Repr

/-- Modelled from the spec: the Generator Client (`services/geminiService`,
not under src/) resolves with "an opaque handle to generated image bytes
(in practice a data URI or equivalent in-memory image reference)"; a data
URI is a nonempty string, so a successful outcome carries a nonempty url. -/
def ValidOutcome : GenOutcome → Prop
  | .success u => u ≠ ""
  | .failure _ => True

instance : DecidablePred ValidOutcome := fun o => by
  cases o with
  | success u => exact inferInstanceAs (Decidable (u ≠ ""))
  | failure m => exact inferInstanceAs (Decidable True)

/-- The whole-entry write performed when a Generator Client call settles
(`processDecade` App.tsx lines 109-118, identically `handleRegenerateDecade`
lines 158-167): success writes `{status:'done', url}`, failure writes
`{status:'error', error: msg}` where the message falls back to
"An unknown error occurred." when the thrown value is not an `Error`. -/
def outcomeEntry : GenOutcome → GeneratedImage
  | .success u => { status := .done, url := some u }
  | .failure m => { status := .error, error := some (m.getD "An unknown error occurred.") }

/-- The prompt built for a decade (App.tsx lines 107 and 156): a fixed
template parameterised only by the decade label. -/
def decadePrompt (decade : String) : String :=
  "Reimagine the person in this photo in the style of the " ++ decade ++
  ". This includes clothing, hairstyle, photo quality, and the overall aesthetic of that decade. The output must be a photorealistic image showing the person clearly."

/-- The store installed at the start of a batch (App.tsx lines 96-100):
every catalog identifier mapped to a fresh pending entry, replacing the
whole previous record. -/
def initialImages : Store :=
  DECADES.foldl (fun acc d => jsSet acc d pendingEntry) []

/-- The relevant React state cells of `App` (App.tsx lines 59-65). -/
structure AppSnapshot where
  uploadedImage : Option String
  generatedImages : Store
  customCaptions : Captions
  appState : String
  orderedDecades : List String
deriving DecidableEq, Repr

/-- `handleReset` (App.tsx lines 179-185): clears the uploaded image, the
whole result store, every caption override, and restores the idle state and
the catalog order. -/
def handleReset (_s : AppSnapshot) : AppSnapshot :=
  { uploadedImage := none
    generatedImages := []
    customCaptions := []
    appState := "idle"
    orderedDecades := DECADES }

/-- `handleRegenerateDecade` (App.tsx lines 138-170), given the outcome the
Generator Client would produce.  Returns the final store together with a
flag recording whether a Generator Client call was issued.  The two early
returns (no uploaded image; entry already pending) leave the store exactly
as it was and make no call; otherwise the entry is first overwritten with a
whole pending entry and then, when the call settles, with the whole outcome
entry. -/
def handleRegenerateDecade (uploadedImage : Option String) (store : Store)
    (decade : String) (o : GenOutcome) : Store × Bool :=
  if uploadedImage = none then
    (store, false)
  else if (jsGet store decade).map GeneratedImage.status = some .pending then
    (store, false)
  else
    (jsSet (jsSet store decade pendingEntry) decade (outcomeEntry o), true)

/-- The intermediate store published by `handleRegenerateDecade` right
before the Generator Client call (App.tsx lines 149-152). -/
def regenPendingStore (store : Store) (decade : String) : Store :=
  jsSet store decade pendingEntry

/-- `handleRegenerateDecade` acting on the full component state: the handler
calls `setGeneratedImages` only, so no other state cell is written
(App.tsx lines 138-170). -/
def regenerateSnapshot (s : AppSnapshot) (decade : String) (o : GenOutcome) : AppSnapshot :=
  { s with generatedImages := (handleRegenerateDecade s.uploadedImage s.generatedImages decade o).1 }

/-- JS truthiness of `image.url` in the filter of `prepareAlbumData`
(App.tsx line 225): `undefined` and the empty string are falsy. -/
def jsTruthy : Option String → Bool
  | none => false
  | some s => !(s = "")

/-- `prepareAlbumData` (App.tsx lines 222-236): keep the entries whose
status is done and whose url is truthy (as an identifier-to-url record, in
store entry order), and refuse with `none` (the "Please wait for all images
to finish generating." alert) when fewer such entries exist than catalog
identifiers.  `albumImageData` is the `imageData` record built by the
filter and reduce of lines 224-229. -/
def albumImageData (store : Store) : List (String × String) :=
  (store.filter fun p => decide (p.2.status = ImageStatus.done) && jsTruthy p.2.url).map
    (fun p => (p.1, p.2.url.getD ""))

/-- The completeness check and result of `prepareAlbumData`: refuse with
`none` (the "Please wait for all images to finish generating." alert) when
fewer qualifying entries exist than catalog identifiers. -/
def prepareAlbumData (store : Store) : Option (List (String × String)) :=
  if (albumImageData store).length < DECADES.length then none
  else some (albumImageData store)

/-- Modelled from the spec: the Album Compositor `createAlbumPage`
(`lib/albumUtils`, not under src/) is a deterministic pure function from
the image record and the caption record to a single flattened raster image
blob; the blob is modelled as an opaque deterministic encoding of its
inputs. -/
def createAlbumPage (images : List (String × String)) (captions : Captions) : String :=
  "albumBlob:" ++ toString images ++ toString captions

/-- Modelled from the spec: the caption the compositor renders for an
identifier is the "custom override if present, else the identifier's
display label". -/
def captionFor (captions : Captions) (d : String) : String :=
  (jsGetStr captions d).getD d

/-- `handleDownloadAlbum` (App.tsx lines 238-257): refuse when
`prepareAlbumData` refuses (no compositor call), otherwise invoke the
compositor once and produce its single blob. -/
def handleDownloadAlbum (store : Store) (captions : Captions) : Option String :=
  match prepareAlbumData store with
  | none => none
  | some imageData => some (createAlbumPage imageData captions)

/-- The share filename built by `handleShareAlbum` (App.tsx lines 267-268)
from the keys of the accepted image record: JS indexes out of range give
`undefined`, which stringifies inside the template literal. -/
def albumFileName (imageData : List (String × String)) : String :=
  "past-forward-album-" ++ (imageData.map Prod.fst).headD "undefined" ++ "-" ++
    (imageData.map Prod.fst).getLastD "undefined" ++ ".jpg"

/-- `handleShareAlbum` (App.tsx lines 259-290): refuse when
`prepareAlbumData` refuses, otherwise compose the album once and hand the
share sheet the blob under the first-to-last decade filename. -/
def handleShareAlbum (store : Store) (captions : Captions) : Option (String × String) :=
  match prepareAlbumData store with
  | none => none
  | some imageData => some (albumFileName imageData, createAlbumPage imageData captions)

/-- Well-formedness of one store entry: url present exactly for done
status, failure message present exactly for error status, and any present
url is a nonempty image reference (see `ValidOutcome`). -/
def EntryWF (g : GeneratedImage) : Prop :=
  (g.url.isSome ↔ g.status = .done) ∧
  (g.error.isSome ↔ g.status = .error) ∧
  g.url ≠ some ""

instance : DecidablePred EntryWF := fun g => by
  unfold EntryWF
  infer_instance

/-- Well-formedness of a whole store: every entry is well formed. -/
def StoreWF (store : Store) : Prop := ∀ p ∈ store, EntryWF p.2

instance : DecidablePred StoreWF := fun s => by
  unfold StoreWF
  infer_instance

/-- Count of entries whose status is done. -/
def doneCount (store : Store) : Nat :=
  (store.filter fun p => decide (p.2.status = ImageStatus.done)).length

/-! ## Batch scheduler semantics (`handleGenerateClick`, App.tsx lines 90-136)

The batch is single-threaded cooperative concurrency: each worker runs
synchronously from one suspension point to the next, and the only
suspension point is the awaited Generator Client call.  One atomic step is
therefore: claim the head of the shared queue and start its call (`claim`),
observe the queue empty and leave the loop (`exhaust`), discard a falsy
queue element without a call (`discardFalsy`, the `if (decade)` check), or
have an in-flight call settle and write its whole-entry result
(`complete`).  A ghost log records each claim as (worker index, decade). -/

/-- The configured worker count (`concurrencyLimit`, App.tsx line 102). -/
def concurrencyLimit : Nat := 2

/-- State of one worker of the pool (App.tsx lines 123-130). -/
inductive WStatus
  | idle
  | calling (d : String)
  | finished
deriving DecidableEq, Repr

/-- Whether a worker has an in-flight Generator Client call. -/
def WStatus.isCalling : WStatus → Bool
  | .calling _ => true
  | _ => false

/-- The instantaneous state of one batch run: the shared `decadesQueue`,
the pool of workers, the result store, and the ghost claim log. -/
structure BatchState where
  queue : List String
  workers : List WStatus
  store : Store
  log : List (Nat × String)
deriving DecidableEq, Repr

/-- The state right after the synchronous part of `handleGenerateClick`
(App.tsx lines 96-103 and 123): all entries pending, full queue, all
workers at the loop head. -/
def batchInit : BatchState :=
  { queue := DECADES
    workers := List.replicate concurrencyLimit .idle
    store := initialImages
    log := [] }

/-- One atomic step of the batch.  Worker `i` is chosen by the scheduler;
`complete` is additionally nondeterministic in the Generator Client
outcome. -/
inductive BatchStep : BatchState → BatchState → Prop
  | claim {s : BatchState} (i : Nat) {d : String} {rest : List String}
      (hw : s.workers[i]? = some .idle) (hq : s.queue = d :: rest) (hd : d ≠ "") :
      BatchStep s
        { queue := rest
          workers := s.workers.set i (.calling d)
          store := s.store
          log := s.log ++ [(i, d)] }
  | discardFalsy {s : BatchState} (i : Nat) {rest : List String}
      (hw : s.workers[i]? = some .idle) (hq : s.queue = "" :: rest) :
      BatchStep s { s with queue := rest }
  | exhaust {s : BatchState} (i : Nat)
      (hw : s.workers[i]? = some .idle) (hq : s.queue = []) :
      BatchStep s { s with workers := s.workers.set i .finished }
  | complete {s : BatchState} (i : Nat) {d : String} (o : GenOutcome)
      (hw : s.workers[i]? = some (.calling d)) (ho : ValidOutcome o) :
      BatchStep s
        { s with
          workers := s.workers.set i .idle
          store := jsSet s.store d (outcomeEntry o) }

/-- States of the batch reachable from its start by any interleaving. -/
def Reachable (s : BatchState) : Prop :=
  Relation.ReflTransGen BatchStep batchInit s

/-- All workers have left their loops: the point where `Promise.all`
resolves (App.tsx line 132). -/
def allFinished (s : BatchState) : Prop :=
  ∀ w ∈ s.workers, w = WStatus.finished

instance : DecidablePred allFinished := fun s => by
  unfold allFinished
  infer_instance

/-- Number of in-flight Generator Client calls. -/
def inFlightCount (s : BatchState) : Nat :=
  s.workers.countP WStatus.isCalling

/-- The inductive invariant of the batch semantics. -/
structure BatchInv (s : BatchState) : Prop where
  wlen : s.workers.length = concurrencyLimit
  order : DECADES = s.log.map Prod.snd ++ s.queue
  keys : s.store.map Prod.fst = DECADES
  finQueue : (∃ w ∈ s.workers, w = WStatus.finished) → s.queue = []
  callClaimed : ∀ (i : Nat) (d : String), s.workers[i]? = some (WStatus.calling d) →
    d ∈ s.log.map Prod.snd ∧ d ∉ s.queue
  callUnique : ∀ (i j : Nat) (d : String), s.workers[i]? = some (WStatus.calling d) →
    s.workers[j]? = some (WStatus.calling d) → i = j
  entries : ∀ d ∈ DECADES,
    (d ∈ s.queue → jsGet s.store d = some pendingEntry) ∧
    ((∃ i : Nat, s.workers[i]? = some (WStatus.calling d)) →
      jsGet s.store d = some pendingEntry) ∧
    (d ∉ s.queue → (∀ i : Nat, s.workers[i]? ≠ some (WStatus.calling d)) →
      ∃ g, jsGet s.store d = some g ∧ (g.status = .done ∨ g.status = .error) ∧ EntryWF g)

/-- A concrete successful Generator Client result used to exercise the
semantics on a closed run. -/
def demoUrl : String := "data:image-demo"

/-- The store entry such a result produces. -/
def demoEntry : GeneratedImage := { status := .done, url := some demoUrl }

/-- The store at the end of the demonstration run: every decade done. -/
def demoStore : Store :=
  [("1950s", demoEntry), ("1960s", demoEntry), ("1970s", demoEntry),
   ("1980s", demoEntry), ("1990s", demoEntry), ("2000s", demoEntry)]

/-- The final state of a concrete batch run in which worker 0 claims and
completes every decade and then both workers observe the empty queue. -/
def batchFinal : BatchState :=
  { queue := []
    workers := [.finished, .finished]
    store := demoStore
    log := [(0, "1950s"), (0, "1960s"), (0, "1970s"), (0, "1980s"), (0, "1990s"), (0, "2000s")] }

/-! ## Record algebra -/

theorem fst_comp_setFun (k : String) (v : GeneratedImage) :
    (fun p : String × GeneratedImage => p.1) ∘ (fun p => if p.1 = k then (k, v) else p) =
      fun p : String × GeneratedImage => p.1 := by
  funext p
  by_cases hp : p.1 = k <;> simp [hp]

theorem jsGet_jsSet_self (s : Store) (k : String) (v : GeneratedImage) :
    jsGet (jsSet s k v) k = some v := by
  unfold jsSet jsGet
  split
  · next h =>
    rw [List.find?_map]
    have hqf : ((fun p : String × GeneratedImage => decide (p.1 = k)) ∘
        (fun p => if p.1 = k then (k, v) else p)) = fun p => decide (p.1 = k) := by
      funext p
      by_cases hp : p.1 = k <;> simp [hp]
    rw [hqf]
    rcases ho : s.find? (fun p => decide (p.1 = k)) with _ | p
    · rw [List.find?_eq_none] at ho
      rw [List.any_eq_true] at h
      obtain ⟨p, hp, hpk⟩ := h
      exact absurd hpk (by simpa using ho p hp)
    · rw [ho, Option.map_some']
      have hk := List.find?_some ho
      simp only [decide_eq_true_eq] at hk
      simp [hk]
  · next h =>
    rw [List.find?_append]
    have hn : s.find? (fun p => decide (p.1 = k)) = none := by
      rw [List.find?_eq_none]
      intro p hp hpk
      exact h (List.any_eq_true.2 ⟨p, hp, hpk⟩)
    simp [hn]

theorem jsGet_jsSet_ne (s : Store) {k k' : String} (v : GeneratedImage) (h : k' ≠ k) :
    jsGet (jsSet s k v) k' = jsGet s k' := by
  unfold jsSet jsGet
  split
  · rw [List.find?_map]
    have hqf : ((fun p : String × GeneratedImage => decide (p.1 = k')) ∘
        (fun p => if p.1 = k then (k, v) else p)) = fun p => decide (p.1 = k') := by
      funext p
      by_cases hp : p.1 = k <;> simp [hp]
    rw [hqf]
    rcases ho : s.find? (fun p => decide (p.1 = k')) with _ | p
    · rw [ho]
      rfl
    · rw [ho]
      have hk := List.find?_some ho
      simp only [decide_eq_true_eq] at hk
      have hpk : p.1 ≠ k := fun hc => h (hk ▸ hc ▸ rfl)
      simp [Function.comp, hpk]
  · rw [List.find?_append]
    rcases ho : s.find? (fun p => decide (p.1 = k')) with _ | p
    · rw [ho]
      simp [Ne.symm h]
    · rw [ho]
      simp

theorem jsSet_map_fst (s : Store) (k : String) (v : GeneratedImage)
    (h : k ∈ s.map Prod.fst) : (jsSet s k v).map Prod.fst = s.map Prod.fst := by
  unfold jsSet
  split
  · rw [List.map_map, fst_comp_setFun]
  · next hac =>
    exfalso
    obtain ⟨p, hp, hpk⟩ := List.mem_map.1 h
    exact hac (List.any_eq_true.2 ⟨p, hp, by simp [hpk]⟩)

theorem jsGet_eq_some_mem {s : Store} {k : String} {g : GeneratedImage}
    (h : jsGet s k = some g) : (k, g) ∈ s := by
  unfold jsGet at h
  rcases ho : s.find? (fun p => decide (p.1 = k)) with _ | p
  · rw [ho] at h
    cases h
  · rw [ho, Option.map_some'] at h
    have hm := List.mem_of_find?_eq_some ho
    have hk := List.find?_some ho
    simp only [decide_eq_true_eq] at hk
    have hg : p.2 = g := Option.some.inj h
    rw [← hg, ← hk]
    simpa using hm

theorem StoreWF_jsGet {s : Store} {k : String} {g : GeneratedImage}
    (hwf : StoreWF s) (h : jsGet s k = some g) : EntryWF g :=
  hwf _ (jsGet_eq_some_mem h)

theorem StoreWF_jsSet {s : Store} (hwf : StoreWF s) {k : String} {v : GeneratedImage}
    (hv : EntryWF v) : StoreWF (jsSet s k v) := by
  intro p hp
  unfold jsSet at hp
  split at hp
  · obtain ⟨q, hq, hfq⟩ := List.mem_map.1 hp
    by_cases hqk : q.1 = k
    · rw [if_pos hqk] at hfq
      rw [← hfq]
      exact hv
    · rw [if_neg hqk] at hfq
      rw [← hfq]
      exact hwf q hq
  · rcases List.mem_append.1 hp with hm | hm
    · exact hwf p hm
    · simp only [List.mem_singleton] at hm
      rw [hm]
      exact hv

theorem entryWF_pending : EntryWF pendingEntry := by
  decide

theorem entryWF_outcome {o : GenOutcome} (ho : ValidOutcome o) :
    EntryWF (outcomeEntry o) := by
  cases o with
  | success u =>
    refine ⟨by simp [outcomeEntry], by simp [outcomeEntry], ?_⟩
    simp only [outcomeEntry, ne_eq, Option.some.injEq]
    exact ho
  | failure m =>
    exact ⟨by simp [outcomeEntry], by simp [outcomeEntry], by simp [outcomeEntry]⟩

theorem initialImages_eq :
    initialImages =
      [("1950s", pendingEntry), ("1960s", pendingEntry), ("1970s", pendingEntry),
       ("1980s", pendingEntry), ("1990s", pendingEntry), ("2000s", pendingEntry)] := by
  decide

/-! ## Batch invariant -/

theorem getElem?_some_lt {α : Type} {l : List α} {i : Nat} {w : α}
    (h : l[i]? = some w) : i < l.length := by
  by_contra hlt
  push_neg at hlt
  rw [List.getElem?_eq_none hlt] at h
  cases h

theorem DECADES_nodup : DECADES.Nodup := by decide

theorem emptyString_not_in_DECADES : ("" : String) ∉ DECADES := by decide

theorem batchInv_init : BatchInv batchInit := by
  refine ⟨?_, ?_, ?_, ?_, ?_, ?_, ?_⟩
  · rfl
  · rfl
  · decide
  · rintro ⟨w, hwmem, hwfin⟩
    have hwi := List.eq_of_mem_replicate hwmem
    rw [hwi] at hwfin
    cases hwfin
  · intro j d' hj
    have h2 := List.eq_of_mem_replicate (List.getElem?_mem hj)
    simp at h2
  · intro j k d' hj hk
    have h2 := List.eq_of_mem_replicate (List.getElem?_mem hj)
    simp at h2
  · intro d' hd'
    refine ⟨?_, ?_, ?_⟩
    · intro _
      fin_cases hd' <;> decide
    · rintro ⟨j, hj⟩
      have h2 := List.eq_of_mem_replicate (List.getElem?_mem hj)
      simp at h2
    · intro hnq _
      exact absurd hd' hnq

theorem batchInv_step {s t : BatchState} (hs : BatchInv s) (st : BatchStep s t) :
    BatchInv t := by
  cases st with
  | claim i hw hq hd =>
    rename_i d rest
    have hi : i < s.workers.length := getElem?_some_lt hw
    have hnodAll : (s.log.map Prod.snd ++ (d :: rest)).Nodup := by
      rw [← hq, ← hs.order]
      exact DECADES_nodup
    have hdisj := List.disjoint_of_nodup_append hnodAll
    have hdlog : d ∉ s.log.map Prod.snd := fun hm => hdisj hm (List.mem_cons_self d rest)
    have hdrest : d ∉ rest := (List.nodup_cons.1 hnodAll.of_append_right).1
    refine ⟨?_, ?_, ?_, ?_, ?_, ?_, ?_⟩
    · simpa using hs.wlen
    · calc DECADES = s.log.map Prod.snd ++ s.queue := hs.order
        _ = s.log.map Prod.snd ++ (d :: rest) := by rw [hq]
        _ = (s.log ++ [(i, d)]).map Prod.snd ++ rest := by simp
    · exact hs.keys
    · rintro ⟨w, hwmem, hwfin⟩
      rcases List.mem_or_eq_of_mem_set hwmem with hmem | heq
      · have h0 := hs.finQueue ⟨w, hmem, hwfin⟩
        rw [hq] at h0
        cases h0
      · rw [heq] at hwfin
        cases hwfin
    · intro j d' hj
      by_cases hji : j = i
      · subst hji
        rw [List.getElem?_set_self hi] at hj
        have hd' : d = d' := by simpa using hj
        subst hd'
        exact ⟨by simp, hdrest⟩
      · rw [List.getElem?_set_ne (fun hc => hji hc.symm)] at hj
        obtain ⟨hin, hnq⟩ := hs.callClaimed j d' hj
        refine ⟨by simp [hin], ?_⟩
        rw [hq] at hnq
        exact fun hm => hnq (List.mem_cons_of_mem d hm)
    · intro j k d' hj hk
      by_cases hji : j = i <;> by_cases hki : k = i
      · rw [hji, hki]
      · subst hji
        rw [List.getElem?_set_self hi] at hj
        have hd' : d = d' := by simpa using hj
        subst hd'
        rw [List.getElem?_set_ne (fun hc => hki hc.symm)] at hk
        exact absurd (hs.callClaimed k d hk).1 hdlog
      · subst hki
        rw [List.getElem?_set_self hi] at hk
        have hd' : d = d' := by simpa using hk
        subst hd'
        rw [List.getElem?_set_ne (fun hc => hji hc.symm)] at hj
        exact absurd (hs.callClaimed j d hj).1 hdlog
      · rw [List.getElem?_set_ne (fun hc => hji hc.symm)] at hj
        rw [List.getElem?_set_ne (fun hc => hki hc.symm)] at hk
        exact hs.callUnique j k d' hj hk
    · intro d' hd'
      obtain ⟨e1, e2, e3⟩ := hs.entries d' hd'
      refine ⟨?_, ?_, ?_⟩
      · intro hqm
        exact e1 (by rw [hq]; exact List.mem_cons_of_mem d hqm)
      · rintro ⟨j, hj⟩
        by_cases hji : j = i
        · subst hji
          rw [List.getElem?_set_self hi] at hj
          have hd'' : d = d' := by simpa using hj
          subst hd''
          exact e1 (by rw [hq]; exact List.mem_cons_self d rest)
        · rw [List.getElem?_set_ne (fun hc => hji hc.symm)] at hj
          exact e2 ⟨j, hj⟩
      · intro hnq hnc
        have hne : d' ≠ d := by
          intro hdd
          subst hdd
          exact hnc i (by rw [List.getElem?_set_self hi])
        apply e3
        · rw [hq]
          intro hm
          rcases List.mem_cons.1 hm with h1 | h1
          · exact hne h1
          · exact hnq h1
        · intro j hj
          by_cases hji : j = i
          · subst hji
            rw [hw] at hj
            simp at hj
          · have h3 := hnc j
            rw [List.getElem?_set_ne (fun hc => hji hc.symm)] at h3
            exact h3 hj
  | discardFalsy i hw hq =>
    exfalso
    have hm : ("" : String) ∈ DECADES := by
      rw [hs.order, hq]
      exact List.mem_append_right _ (List.mem_cons_self _ _)
    exact emptyString_not_in_DECADES hm
  | exhaust i hw hq =>
    have hi : i < s.workers.length := getElem?_some_lt hw
    refine ⟨?_, ?_, ?_, ?_, ?_, ?_, ?_⟩
    · simpa using hs.wlen
    · exact hs.order
    · exact hs.keys
    · intro _
      exact hq
    · intro j d' hj
      by_cases hji : j = i
      · subst hji
        rw [List.getElem?_set_self hi] at hj
        simp at hj
      · rw [List.getElem?_set_ne (fun hc => hji hc.symm)] at hj
        exact hs.callClaimed j d' hj
    · intro j k d' hj hk
      by_cases hji : j = i
      · subst hji
        rw [List.getElem?_set_self hi] at hj
        simp at hj
      · by_cases hki : k = i
        · subst hki
          rw [List.getElem?_set_self hi] at hk
          simp at hk
        · rw [List.getElem?_set_ne (fun hc => hji hc.symm)] at hj
          rw [List.getElem?_set_ne (fun hc => hki hc.symm)] at hk
          exact hs.callUnique j k d' hj hk
    · intro d' hd'
      obtain ⟨e1, e2, e3⟩ := hs.entries d' hd'
      refine ⟨?_, ?_, ?_⟩
      · exact e1
      · rintro ⟨j, hj⟩
        by_cases hji : j = i
        · subst hji
          rw [List.getElem?_set_self hi] at hj
          simp at hj
        · rw [List.getElem?_set_ne (fun hc => hji hc.symm)] at hj
          exact e2 ⟨j, hj⟩
      · intro hnq hnc
        apply e3 hnq
        intro j hj
        by_cases hji : j = i
        · subst hji
          rw [hw] at hj
          simp at hj
        · have h3 := hnc j
          rw [List.getElem?_set_ne (fun hc => hji hc.symm)] at h3
          exact h3 hj
  | complete i o hw ho =>
    rename_i d
    have hi : i < s.workers.length := getElem?_some_lt hw
    have hclaim := hs.callClaimed i d hw
    have hdD : d ∈ DECADES := by
      rw [hs.order]
      exact List.mem_append_left _ hclaim.1
    have hkey : d ∈ s.store.map Prod.fst := by
      rw [hs.keys]
      exact hdD
    refine ⟨?_, ?_, ?_, ?_, ?_, ?_, ?_⟩
    · simpa using hs.wlen
    · exact hs.order
    · rw [jsSet_map_fst _ _ _ hkey]
      exact hs.keys
    · rintro ⟨w, hwmem, hwfin⟩
      rcases List.mem_or_eq_of_mem_set hwmem with hmem | heq
      · exact hs.finQueue ⟨w, hmem, hwfin⟩
      · rw [heq] at hwfin
        cases hwfin
    · intro j d' hj
      by_cases hji : j = i
      · subst hji
        rw [List.getElem?_set_self hi] at hj
        simp at hj
      · rw [List.getElem?_set_ne (fun hc => hji hc.symm)] at hj
        exact hs.callClaimed j d' hj
    · intro j k d' hj hk
      by_cases hji : j = i
      · subst hji
        rw [List.getElem?_set_self hi] at hj
        simp at hj
      · by_cases hki : k = i
        · subst hki
          rw [List.getElem?_set_self hi] at hk
          simp at hk
        · rw [List.getElem?_set_ne (fun hc => hji hc.symm)] at hj
          rw [List.getElem?_set_ne (fun hc => hki hc.symm)] at hk
          exact hs.callUnique j k d' hj hk
    · intro d' hd'
      obtain ⟨e1, e2, e3⟩ := hs.entries d' hd'
      refine ⟨?_, ?_, ?_⟩
      · intro hqm
        have hne : d' ≠ d := fun hdd => hclaim.2 (hdd ▸ hqm)
        rw [jsGet_jsSet_ne _ _ hne]
        exact e1 hqm
      · rintro ⟨j, hj⟩
        by_cases hji : j = i
        · subst hji
          rw [List.getElem?_set_self hi] at hj
          simp at hj
        · rw [List.getElem?_set_ne (fun hc => hji hc.symm)] at hj
          have hne : d' ≠ d := by
            intro hdd
            subst hdd
            exact hji (hs.callUnique j i d' hj hw)
          rw [jsGet_jsSet_ne _ _ hne]
          exact e2 ⟨j, hj⟩
      · intro hnq hnc
        by_cases hdd : d' = d
        · subst hdd
          refine ⟨outcomeEntry o, jsGet_jsSet_self _ _ _, ?_, entryWF_outcome ho⟩
          cases o <;> simp [outcomeEntry]
        · rw [jsGet_jsSet_ne _ _ hdd]
          apply e3 hnq
          intro j hj
          by_cases hji : j = i
          · subst hji
            rw [hw] at hj
            have hdd' : d = d' := by simpa using hj
            exact hdd hdd'.symm
          · have h3 := hnc j
            rw [List.getElem?_set_ne (fun hc => hji hc.symm)] at h3
            exact h3 hj

theorem reachable_inv {s : BatchState} (h : Reachable s) : BatchInv s := by
  induction h with
  | refl => exact batchInv_init
  | tail _ hstep ih => exact batchInv_step ih hstep

/-! ## Batch claim theorems -/

theorem finished_queue_empty {s : BatchState} (hinv : BatchInv s) (hfin : allFinished s) :
    s.queue = [] := by
  apply hinv.finQueue
  have hlen := hinv.wlen
  have hne : s.workers ≠ [] := by
    intro h0
    rw [h0] at hlen
    cases hlen
  obtain ⟨w, hw⟩ := List.exists_mem_of_ne_nil s.workers hne
  exact ⟨w, hw, hfin w hw⟩

theorem finished_no_calling {s : BatchState} (hfin : allFinished s) :
    ∀ i : Nat, s.workers[i]? ≠ some (WStatus.calling d) := by
  intro i hj
  have h2 := hfin _ (List.getElem?_mem hj)
  simp at h2

theorem reach_batchFinal : Reachable batchFinal := by
  have h0 : Reachable batchInit := Relation.ReflTransGen.refl
  have h1 := Relation.ReflTransGen.tail h0 (BatchStep.claim 0 rfl rfl (by decide))
  have h2 := Relation.ReflTransGen.tail h1
    (BatchStep.complete 0 (GenOutcome.success demoUrl) rfl (by decide))
  have h3 := Relation.ReflTransGen.tail h2 (BatchStep.claim 0 rfl rfl (by decide))
  have h4 := Relation.ReflTransGen.tail h3
    (BatchStep.complete 0 (GenOutcome.success demoUrl) rfl (by decide))
  have h5 := Relation.ReflTransGen.tail h4 (BatchStep.claim 0 rfl rfl (by decide))
  have h6 := Relation.ReflTransGen.tail h5
    (BatchStep.complete 0 (GenOutcome.success demoUrl) rfl (by decide))
  have h7 := Relation.ReflTransGen.tail h6 (BatchStep.claim 0 rfl rfl (by decide))
  have h8 := Relation.ReflTransGen.tail h7
    (BatchStep.complete 0 (GenOutcome.success demoUrl) rfl (by decide))
  have h9 := Relation.ReflTransGen.tail h8 (BatchStep.claim 0 rfl rfl (by decide))
  have h10 := Relation.ReflTransGen.tail h9
    (BatchStep.complete 0 (GenOutcome.success demoUrl) rfl (by decide))
  have h11 := Relation.ReflTransGen.tail h10 (BatchStep.claim 0 rfl rfl (by decide))
  have h12 := Relation.ReflTransGen.tail h11
    (BatchStep.complete 0 (GenOutcome.success demoUrl) rfl (by decide))
  have h13 := Relation.ReflTransGen.tail h12 (BatchStep.exhaust 0 rfl rfl)
  have h14 := Relation.ReflTransGen.tail h13 (BatchStep.exhaust 1 rfl rfl)
  exact h14

/-- C1: in every reachable state of a batch run in which the join over all
workers has resolved (every worker finished its loop), every identifier of
the catalog has an entry in the result store whose status is Done or
Error — no identifier is left Pending. -/
theorem batch_completion_no_pending {s : BatchState} (hr : Reachable s)
    (hfin : allFinished s) :
    ∀ d ∈ DECADES, ∃ g, jsGet s.store d = some g ∧
      (g.status = ImageStatus.done ∨ g.status = ImageStatus.error) ∧
      g.status ≠ ImageStatus.pending := by
  have hinv := reachable_inv hr
  have hq := finished_queue_empty hinv hfin
  intro d hd
  obtain ⟨e1, e2, e3⟩ := hinv.entries d hd
  obtain ⟨g, hg, hst, _⟩ := e3 (by rw [hq]; exact List.not_mem_nil d) (finished_no_calling hfin)
  refine ⟨g, hg, hst, ?_⟩
  rcases hst with h1 | h1 <;> rw [h1] <;> simp

/-- Witness for C1 on the concrete finished run `batchFinal`. -/
theorem batch_completion_no_pending_witness :
    ∃ g, jsGet batchFinal.store "1950s" = some g ∧
      (g.status = ImageStatus.done ∨ g.status = ImageStatus.error) ∧
      g.status ≠ ImageStatus.pending :=
  batch_completion_no_pending reach_batchFinal (by decide) "1950s" (by decide)

/-- C2: in every reachable state of a batch run, at most `concurrencyLimit`
(= 2) Generator Client calls are in flight simultaneously. -/
theorem batch_inflight_bound {s : BatchState} (hr : Reachable s) :
    inFlightCount s ≤ concurrencyLimit := by
  have hinv := reachable_inv hr
  calc inFlightCount s ≤ s.workers.length := List.countP_le_length _
    _ = concurrencyLimit := hinv.wlen

/-- Witness for C2 on the concrete finished run `batchFinal`. -/
theorem batch_inflight_bound_witness : inFlightCount batchFinal ≤ concurrencyLimit :=
  batch_inflight_bound reach_batchFinal

/-- C3: in every reachable state of a batch run whose workers have all
finished, the chronological claim log contains exactly the catalog, in
catalog (FIFO) order — every identifier claimed exactly once, hence exactly
one Generator Client call per identifier within the batch — and each
identifier was claimed by exactly one worker. -/
theorem batch_claims_exactly_once {s : BatchState} (hr : Reachable s)
    (hfin : allFinished s) :
    s.log.map Prod.snd = DECADES ∧
    ∀ i j d, (i, d) ∈ s.log → (j, d) ∈ s.log → i = j := by
  have hinv := reachable_inv hr
  have hq := finished_queue_empty hinv hfin
  have hmap : s.log.map Prod.snd = DECADES := by
    have ho := hinv.order
    rw [hq, List.append_nil] at ho
    exact ho.symm
  refine ⟨hmap, ?_⟩
  intro i j d hi hj
  have hnod : (s.log.map Prod.snd).Nodup := by
    rw [hmap]
    exact DECADES_nodup
  have hxy := List.inj_on_of_nodup_map hnod hi hj rfl
  exact congrArg Prod.fst hxy

/-- Witness for C3 on the concrete finished run `batchFinal`. -/
theorem batch_claims_exactly_once_witness : batchFinal.log.map Prod.snd = DECADES :=
  (batch_claims_exactly_once reach_batchFinal (by decide)).1

/-! ## Regeneration and reset claims -/

/-- C4: invoking `handleRegenerateDecade` for an identifier whose current
status is Pending is a no-op — the result store is returned unchanged and
no Generator Client call is issued — whatever outcome the client would
have produced. -/
theorem regenerate_pending_noop (uploadedImage : Option String) (store : Store)
    (decade : String) (o : GenOutcome)
    (h : (jsGet store decade).map GeneratedImage.status = some ImageStatus.pending) :
    handleRegenerateDecade uploadedImage store decade o = (store, false) := by
  simp [handleRegenerateDecade, h]

/-- Witness for C4 at a concrete pending entry. -/
theorem regenerate_pending_noop_witness :
    handleRegenerateDecade (some "img") [("1950s", pendingEntry)] "1950s"
      (GenOutcome.success demoUrl) = ([("1950s", pendingEntry)], false) :=
  regenerate_pending_noop (some "img") [("1950s", pendingEntry)] "1950s"
    (GenOutcome.success demoUrl) (by decide)

/-- C10: invoking `handleRegenerateDecade` when no source image is uploaded
returns without any state change — the whole result store is unchanged and
no Generator Client call is made, for every store, identifier and
would-be outcome. -/
theorem regenerate_no_image_noop (store : Store) (decade : String) (o : GenOutcome) :
    handleRegenerateDecade none store decade o = (store, false) := by
  unfold handleRegenerateDecade
  rw [if_pos rfl]

/-- C5: `handleReset` empties the result store and the caption overrides
regardless of the prior state, and the store a subsequent batch starts
from (`batchInit.store = initialImages`) maps every catalog identifier to
a pending entry. -/
theorem reset_clears_all (s : AppSnapshot) (d : String) (hd : d ∈ DECADES) :
    (handleReset s).generatedImages = [] ∧
    (handleReset s).customCaptions = [] ∧
    jsGet batchInit.store d = some pendingEntry := by
  refine ⟨rfl, rfl, ?_⟩
  fin_cases hd <;> decide

/-- Witness for C5 at a concrete snapshot with a completed run and a
caption override in place. -/
theorem reset_clears_all_witness :
    (handleReset ⟨some "img", demoStore, [("1950s", "Me")], "results-shown", DECADES⟩).generatedImages = [] ∧
    (handleReset ⟨some "img", demoStore, [("1950s", "Me")], "results-shown", DECADES⟩).customCaptions = [] ∧
    jsGet batchInit.store "1950s" = some pendingEntry :=
  reset_clears_all ⟨some "img", demoStore, [("1950s", "Me")], "results-shown", DECADES⟩
    "1950s" (by decide)

/-! ## Store well-formedness (C8) -/

theorem jsGet_of_mem_nodup {s : Store} (hnod : (s.map Prod.fst).Nodup)
    {p : String × GeneratedImage} (hp : p ∈ s) : jsGet s p.1 = some p.2 := by
  induction s with
  | nil => cases hp
  | cons q t ih =>
    rw [List.map_cons, List.nodup_cons] at hnod
    rcases List.mem_cons.1 hp with h1 | h1
    · rw [h1]
      unfold jsGet
      rw [List.find?_cons_of_pos _ (by simp)]
      rfl
    · by_cases hq : p.1 = q.1
      · exfalso
        exact hnod.1 (hq ▸ List.mem_map.2 ⟨p, h1, rfl⟩)
      · unfold jsGet
        rw [List.find?_cons_of_neg _ (by simpa using fun hc => hq hc.symm)]
        exact ih hnod.2 h1

/-- C8: every store transition of every operation preserves the entry
invariant (url present iff Done, failure message present iff Error, the
two never both present — `EntryWF` also records that a present url is a
nonempty image reference): the batch initialisation writes well-formed
entries, every store of a reachable batch state is well formed, the
pending write and the settling write of a regeneration preserve
well-formedness, reset yields the (vacuously well-formed) empty store,
and every write replaces the whole entry (`jsSet` at the written key
yields exactly the written entry). -/
theorem store_entries_wellformed :
    (∀ g : GeneratedImage, EntryWF g → ¬(g.url.isSome ∧ g.error.isSome)) ∧
    StoreWF initialImages ∧
    (∀ st : BatchState, Reachable st → StoreWF st.store) ∧
    (∀ (store : Store) (d : String), StoreWF store → StoreWF (regenPendingStore store d)) ∧
    (∀ (img : Option String) (store : Store) (d : String) (o : GenOutcome),
      ValidOutcome o → StoreWF store → StoreWF (handleRegenerateDecade img store d o).1) ∧
    (∀ s : AppSnapshot, StoreWF (handleReset s).generatedImages) ∧
    (∀ (store : Store) (d : String) (v : GeneratedImage), jsGet (jsSet store d v) d = some v) := by
  refine ⟨?_, by decide, ?_, ?_, ?_, ?_, ?_⟩
  · rintro g ⟨h1, h2, _⟩ ⟨hu, he⟩
    have hd := h1.1 hu
    have he2 := h2.1 he
    rw [hd] at he2
    cases he2
  · intro st hr p hp
    have hinv := reachable_inv hr
    have hnod : (st.store.map Prod.fst).Nodup := by
      rw [hinv.keys]
      exact DECADES_nodup
    have hget := jsGet_of_mem_nodup hnod hp
    have hdD : p.1 ∈ DECADES := by
      rw [← hinv.keys]
      exact List.mem_map.2 ⟨p, hp, rfl⟩
    obtain ⟨e1, e2, e3⟩ := hinv.entries p.1 hdD
    by_cases h1 : p.1 ∈ st.queue
    · have := e1 h1
      rw [hget] at this
      have hpe : p.2 = pendingEntry := Option.some.inj this
      rw [hpe]
      exact entryWF_pending
    · by_cases h2 : ∃ i : Nat, st.workers[i]? = some (WStatus.calling p.1)
      · have := e2 h2
        rw [hget] at this
        have hpe : p.2 = pendingEntry := Option.some.inj this
        rw [hpe]
        exact entryWF_pending
      · push_neg at h2
        obtain ⟨g, hg, _, hwf⟩ := e3 h1 h2
        rw [hget] at hg
        have hpe : p.2 = g := Option.some.inj hg
        rw [hpe]
        exact hwf
  · intro store d hwf
    exact StoreWF_jsSet hwf entryWF_pending
  · intro img store d o ho hwf
    unfold handleRegenerateDecade
    split
    · exact hwf
    · split
      · exact hwf
      · exact StoreWF_jsSet (StoreWF_jsSet hwf entryWF_pending) (entryWF_outcome ho)
  · intro s p hp
    cases hp
  · intro store d v
    exact jsGet_jsSet_self store d v

/-- Witness for C8: a regeneration with a failure outcome on the
all-done demo store keeps every entry well formed. -/
theorem store_entries_wellformed_witness :
    StoreWF (handleRegenerateDecade (some "img") demoStore "1950s" (GenOutcome.failure none)).1 :=
  store_entries_wellformed.2.2.2.2.1 (some "img") demoStore "1950s" (GenOutcome.failure none)
    (by decide) (by decide)

/-! ## Album claims -/

/-- C6: for a store with distinct keys and well-formed entries, album
composition is refused — `handleDownloadAlbum` returns `none` and the
compositor is never invoked — whenever the Done-count is below the catalog
size, and whenever the Done-count equals the catalog size the request is
accepted and exactly one output blob is produced. -/
theorem album_refusal_iff_incomplete (store : Store) (captions : Captions)
    (_hnod : (store.map Prod.fst).Nodup) (hwf : StoreWF store) :
    -- `_hnod` ties the entry count to the identifier count: with distinct
    -- keys, `doneCount` is exactly the number of identifiers at Done.
    (doneCount store < DECADES.length → handleDownloadAlbum store captions = none) ∧
    (doneCount store = DECADES.length →
      ∃! b, handleDownloadAlbum store captions = some b) := by
  have h1 : (albumImageData store).length ≤ doneCount store := by
    unfold albumImageData doneCount
    rw [List.length_map]
    refine List.Sublist.length_le (List.monotone_filter_right store (fun a ha => ?_))
    rw [Bool.and_eq_true] at ha
    exact ha.1
  constructor
  · intro hlt
    have hp : prepareAlbumData store = none := by
      unfold prepareAlbumData
      rw [if_pos (lt_of_le_of_lt h1 hlt)]
    simp [handleDownloadAlbum, hp]
  · intro heq
    have hcong : (store.filter fun p => decide (p.2.status = ImageStatus.done) && jsTruthy p.2.url)
        = store.filter fun p => decide (p.2.status = ImageStatus.done) := by
      apply List.filter_congr
      intro x hx
      by_cases hd : x.2.status = ImageStatus.done
      · obtain ⟨hurl, _, hne⟩ := hwf x hx
        have hsome : x.2.url.isSome := hurl.2 hd
        rcases hu : x.2.url with _ | u
        · rw [hu] at hsome
          cases hsome
        · have hne' : u ≠ "" := fun hc => hne (by rw [hu, hc])
          simp [hd, jsTruthy, hu, hne']
      · simp [hd]
    have hlen2 : (albumImageData store).length = DECADES.length := by
      unfold albumImageData
      rw [List.length_map, hcong]
      exact heq
    have hp : prepareAlbumData store = some (albumImageData store) := by
      unfold prepareAlbumData
      rw [if_neg (by rw [hlen2]; exact lt_irrefl _)]
    refine ⟨createAlbumPage (albumImageData store) captions, ?_, ?_⟩
    · simp [handleDownloadAlbum, hp]
    · intro y hy
      simp [handleDownloadAlbum, hp] at hy
      exact hy.symm

/-- Witness for C6: the all-done demo store is accepted and yields one
blob. -/
theorem album_refusal_iff_incomplete_witness :
    ∃! b, handleDownloadAlbum demoStore [] = some b :=
  (album_refusal_iff_incomplete demoStore [] (by decide) (by decide)).2 (by decide)

/-- C7: a caption override set for an identifier is unmodified by
regenerating that identifier's image — the handler writes only the image
store, leaving the captions mapping untouched — and the override is still
the caption the next album composition renders for that identifier. -/
theorem caption_survives_regeneration (s : AppSnapshot) (decade : String)
    (o : GenOutcome) (c : String)
    (hc : jsGetStr s.customCaptions decade = some c) :
    (regenerateSnapshot s decade o).customCaptions = s.customCaptions ∧
    captionFor (regenerateSnapshot s decade o).customCaptions decade = c := by
  refine ⟨rfl, ?_⟩
  show captionFor s.customCaptions decade = c
  unfold captionFor
  rw [hc]
  rfl

/-- Witness for C7 at the spec's own scenario: override "Groovy Me" for
1970s survives regenerating 1970s. -/
theorem caption_survives_regeneration_witness :
    (regenerateSnapshot ⟨some "img", demoStore, [("1970s", "Groovy Me")], "results-shown", DECADES⟩
      "1970s" (GenOutcome.success demoUrl)).customCaptions = [("1970s", "Groovy Me")] ∧
    captionFor (regenerateSnapshot ⟨some "img", demoStore, [("1970s", "Groovy Me")], "results-shown", DECADES⟩
      "1970s" (GenOutcome.success demoUrl)).customCaptions "1970s" = "Groovy Me" :=
  caption_survives_regeneration
    ⟨some "img", demoStore, [("1970s", "Groovy Me")], "results-shown", DECADES⟩
    "1970s" (GenOutcome.success demoUrl) "Groovy Me" (by decide)

/-- C9: whenever the store's keys are the catalog in catalog order — as
holds for every reachable store, updates being in-place — and every entry
is Done (and well formed), the share filename is
past-forward-album-1950s-2000s.jpg: first and last identifiers of the
completed set in catalog order, independent of completion order. -/
theorem share_filename_first_last (store : Store) (captions : Captions)
    (hkeys : store.map Prod.fst = DECADES)
    (hdone : ∀ p ∈ store, p.2.status = ImageStatus.done)
    (hwf : StoreWF store) :
    ∃ b, handleShareAlbum store captions =
      some ("past-forward-album-1950s-2000s.jpg", b) := by
  have hfilter : (store.filter fun p => decide (p.2.status = ImageStatus.done) && jsTruthy p.2.url)
      = store := by
    rw [List.filter_eq_self]
    intro p hp
    obtain ⟨hurl, _, hne⟩ := hwf p hp
    have hd := hdone p hp
    have hsome : p.2.url.isSome := hurl.2 hd
    rcases hu : p.2.url with _ | u
    · rw [hu] at hsome
      cases hsome
    · have hne' : u ≠ "" := fun hc => hne (by rw [hu, hc])
      simp [hd, jsTruthy, hu, hne']
  have hdata : (albumImageData store).map Prod.fst = DECADES := by
    unfold albumImageData
    rw [hfilter, List.map_map]
    have hcomp : (Prod.fst ∘ fun p : String × GeneratedImage => (p.1, p.2.url.getD ""))
        = Prod.fst := by
      funext p
      rfl
    rw [hcomp, hkeys]
  have hlen : (albumImageData store).length = DECADES.length := by
    have hc := congrArg List.length hdata
    rwa [List.length_map] at hc
  have hp : prepareAlbumData store = some (albumImageData store) := by
    unfold prepareAlbumData
    rw [if_neg (by rw [hlen]; exact lt_irrefl _)]
  refine ⟨createAlbumPage (albumImageData store) captions, ?_⟩
  have hname : albumFileName (albumImageData store) = "past-forward-album-1950s-2000s.jpg" := by
    unfold albumFileName
    rw [hdata]
    decide
  simp [handleShareAlbum, hp, hname]

/-- Witness for C9 on the all-done demo store. -/
theorem share_filename_first_last_witness :
    ∃ b, handleShareAlbum demoStore [] =
      some ("past-forward-album-1950s-2000s.jpg", b) :=
  share_filename_first_last demoStore [] (by decide) (by decide) (by decide)
